import Mathlib

/-!
Shallow embedding of the Yeo-Johnson power-transform estimator of
`pynorm/preprocessing/_yj.py`, together with proofs about its forward and
inverse transform primitives, its log-likelihood evaluator and the
fit/transform/inverse-transform orchestration.

Modelling conventions: floating-point scalars are modelled over `ℝ`
(`np.power` by `Real.rpow`, `np.log` by `Real.log`, `np.exp` by `Real.exp`);
one-dimensional numpy arrays by `List ℝ`; two-dimensional row-major arrays by
`List (List ℝ)`; a raised Python exception by `Except.error` carrying the
message.
-/

namespace YJ

/-- Module constant `ZERO = 1e-12` of `_yj.py` (the decimal value of the
literal). -/
def ZERO : ℝ := 1e-12

/-- Embeds `_eqls(lam, v): return np.abs(lam) <= v`. -/
def _eqls (lam v : ℝ) : Prop := |lam| ≤ v

noncomputable instance (lam v : ℝ) : Decidable (_eqls lam v) :=
  inferInstanceAs (Decidable (|lam| ≤ v))

/-- Embeds `_yj_trans_single_x(x, lam)`: the forward transform of one
observation. The branch guards are exactly those of the source:
`x >= 0`, `not _eqls(lam, ZERO)`, `not _eqls(lam, 2.0)`. -/
noncomputable def _yj_trans_single_x (x lam : ℝ) : ℝ :=
  if 0 ≤ x then
    if ¬ _eqls lam ZERO then ((x + 1) ^ lam - 1) / lam
    else Real.log (x + 1)
  else
    if ¬ _eqls lam 2 then -(((-x + 1) ^ (2 - lam) - 1) / (2 - lam))
    else -Real.log (-x + 1)

/-- Embeds the loop body of `_yj_inv_transform_y(y, lam)`: the inverse
transform of one transformed value, with the source's if/elif/else chain. -/
noncomputable def _yj_inv_single_x (x lam : ℝ) : ℝ :=
  if ¬ lam = 0 ∧ 0 ≤ x then (x * lam + 1) ^ (1 / lam) - 1
  else if lam = 0 ∧ 0 ≤ x then Real.exp x - 1
  else if ¬ lam = 2 ∧ x < 0 then -((-(x * (2 - lam)) + 1) ^ (1 / (2 - lam))) - 1
  else -(Real.exp (-x) - 1)

/-- Embeds `_yj_transform_y(y, lam)`: element-wise forward transform. -/
noncomputable def _yj_transform_y (y : List ℝ) (lam : ℝ) : List ℝ :=
  y.map (fun x => _yj_trans_single_x x lam)

/-- Embeds `_yj_inv_transform_y(y, lam)`: element-wise inverse transform. -/
noncomputable def _yj_inv_transform_y (y : List ℝ) (lam : ℝ) : List ℝ :=
  y.map (fun x => _yj_inv_single_x x lam)

/-- Embeds `np.min` on a vector (0 on the empty vector; `_yj_llf` only takes
minima after its emptiness check). -/
noncomputable def listMin : List ℝ → ℝ
  | [] => 0
  | x :: xs => xs.foldl min x

/-- Embeds one shift block of `_yj_llf`: `if min_v < ZERO: v += abs(min_v)+1`,
the minimum being taken before any shift. -/
noncomputable def shiftVec (v : List ℝ) : List ℝ :=
  if listMin v < ZERO then v.map (fun t => t + (|listMin v| + 1)) else v

/-- Embeds `np.sum((y - y_mean)**2. / N)` of `_yj_llf`, with
`y_mean = np.mean(y)` and `N = data.shape[0]` (equal to the length of `y`). -/
noncomputable def codeVar (v : List ℝ) (N : ℝ) : ℝ :=
  (v.map (fun t => (t - v.sum / N) ^ 2 / N)).sum

/-- Embeds `_yj_llf(data, lmb)` as a state-passing function. The first
component is the outcome — `Except.error` for the raised exception,
`Except.ok none` for the `np.nan` return, `Except.ok (some v)` for a finite
score. The second component is the caller-owned `data` array after the call:
`np.asarray` returns the caller's ndarray itself (no copy), and
`data += shift` adds in place, so the shift of `data` writes through. The
transformed vector `y` is freshly allocated inside the call, so its shift
does not leak. -/
noncomputable def _yj_llf_state (data : List ℝ) (lmb : ℝ) :
    Except String (Option ℝ) × List ℝ :=
  if data.length = 0 then (Except.error "data is empty", data)
  else
    let y := _yj_transform_y data lmb
    let d2 := shiftVec data
    let y2 := shiftVec y
    let var := codeVar y2 (data.length : ℝ)
    if var = 0 then (Except.ok none, d2)
    else
      (Except.ok (some ((lmb - 1) * (d2.map Real.log).sum
        - (data.length : ℝ) / 2 * Real.log var)), d2)

/-- Outcome of `_yj_llf` (first component of the state-passing embedding). -/
noncomputable def _yj_llf (data : List ℝ) (lmb : ℝ) : Except String (Option ℝ) :=
  (_yj_llf_state data lmb).1

/-- Population variance of a vector, worded as in the spec:
`sum((v - mean)^2) / N`. -/
noncomputable def popVar (v : List ℝ) : ℝ :=
  (v.map (fun t => (t - v.sum / v.length) ^ 2)).sum / v.length

/-- Feature count (`X.shape[1]`) of a row-major matrix: the common row
length, read off the first row. -/
def nFeatures (X : List (List ℝ)) : ℕ := (X.headD []).length

/-- Well-formedness of a two-dimensional array (which `check_array`
enforces): every row has the common length. -/
def Rectangular (X : List (List ℝ)) : Prop :=
  ∀ row ∈ X, row.length = nFeatures X

/-- Column `j` of a row-major matrix (`X[:, j]`). -/
def col (X : List (List ℝ)) (j : ℕ) : List ℝ := X.map (fun row => row.getD j 0)

/-- Embeds `np.array(cols).transpose()` for a list of columns of common
length `nrows`: row `i` of the result collects entry `i` of every column. -/
def transposeIdx (m : List (List ℝ)) (nrows : ℕ) : List (List ℝ) :=
  (List.range nrows).map (fun i => m.map (fun c => c.getD i 0))

/-- Estimator state: `lambda_` is `none` until a `fit` has succeeded
(sklearn's `check_is_fitted(self, 'lambda_')` tests exactly whether this
attribute has been set). The `n_jobs` constructor argument only selects the
degree of parallelism of `fit`'s per-column loop; `Parallel` returns results
in input order for every degree, so `n_jobs` does not affect any result and
is not modelled. -/
structure YeoJohnsonTransformer where
  lambda_ : Option (List ℝ)

/-- Message of sklearn's `NotFittedError` raised by `check_is_fitted` when
`lambda_` is missing. -/
def notFittedMsg : String :=
  "This YeoJohnsonTransformer instance is not fitted yet"

/-- Fitted lambda vector: one call of the per-feature estimator `est` on
each column of `X`, collected in column order (the source iterates
`for y in X.transpose()` and `Parallel` preserves input order). `est` models
`_yj_estimate_lambda_single_y`, whose core (`scipy.optimize.brent`) is an
external collaborator treated as opaque. -/
def lambdasOf (est : List ℝ → ℝ) (X : List (List ℝ)) : List ℝ :=
  (List.range (nFeatures X)).map (fun j => est (col X j))

/-- Embeds `YeoJohnsonTransformer.fit`: after `check_array` (external
validation of the two-dimensional numeric form, copying), the source's
`n_samples < 2` guard with its exact message, then per-feature estimation. -/
def YeoJohnsonTransformer.fit (est : List ℝ → ℝ) (X : List (List ℝ)) :
    Except String YeoJohnsonTransformer :=
  if X.length < 2 then
    Except.error ("n_samples should be at least two, but was " ++ toString X.length)
  else Except.ok ⟨some (lambdasOf est X)⟩

/-- Embeds `np.array([_yj_transform_y(X[:,i], lambdas_[i]) for i in
xrange(n_features)]).transpose()` of `transform`. -/
noncomputable def transformPayload (lams : List ℝ) (X : List (List ℝ)) :
    List (List ℝ) :=
  transposeIdx
    ((List.range (nFeatures X)).map
      (fun i => _yj_transform_y (col X i) (lams.getD i 0)))
    X.length

/-- Embeds `YeoJohnsonTransformer.transform`: `check_is_fitted` first, then
(after `check_array`) the `n_features == lambda_.shape[0]` guard, then the
per-column forward transform. -/
noncomputable def YeoJohnsonTransformer.transform (t : YeoJohnsonTransformer)
    (X : List (List ℝ)) : Except String (List (List ℝ)) :=
  match t.lambda_ with
  | none => Except.error notFittedMsg
  | some lams =>
    if ¬ nFeatures X = lams.length then Except.error "dim mismatch in n_features"
    else Except.ok (transformPayload lams X)

/-- Embeds the payload of `inverse_transform`, mirroring `transformPayload`
with the inverse primitive. -/
noncomputable def inversePayload (lams : List ℝ) (X : List (List ℝ)) :
    List (List ℝ) :=
  transposeIdx
    ((List.range (nFeatures X)).map
      (fun i => _yj_inv_transform_y (col X i) (lams.getD i 0)))
    X.length

/-- Embeds `YeoJohnsonTransformer.inverse_transform`: `check_is_fitted`
first, then the feature-count guard, then the per-column inverse
transform. -/
noncomputable def YeoJohnsonTransformer.inverse_transform
    (t : YeoJohnsonTransformer) (X : List (List ℝ)) :
    Except String (List (List ℝ)) :=
  match t.lambda_ with
  | none => Except.error notFittedMsg
  | some lams =>
    if ¬ nFeatures X = lams.length then Except.error "dim mismatch in n_features"
    else Except.ok (inversePayload lams X)

/-! Sign behaviour of the forward primitive. -/

lemma forward_nonneg (x lam : ℝ) (hx : 0 ≤ x) : 0 ≤ _yj_trans_single_x x lam := by
  have hx1 : (1 : ℝ) ≤ x + 1 := by linarith
  unfold _yj_trans_single_x
  rw [if_pos hx]
  by_cases h : _eqls lam ZERO
  · rw [if_neg (not_not_intro h)]
    exact Real.log_nonneg hx1
  · rw [if_pos h]
    rcases lt_trichotomy lam 0 with hl | hl | hl
    · apply div_nonneg_iff.mpr
      refine Or.inr ⟨?_, hl.le⟩
      have hle : (x + 1) ^ lam ≤ 1 := Real.rpow_le_one_of_one_le_of_nonpos hx1 hl.le
      linarith
    · exfalso
      apply h
      show |lam| ≤ ZERO
      rw [hl, abs_zero]
      norm_num [ZERO]
    · apply div_nonneg _ hl.le
      have hge : (1 : ℝ) ≤ (x + 1) ^ lam := Real.one_le_rpow hx1 hl.le
      linarith

lemma forward_neg (x lam : ℝ) (hx : x < 0) : _yj_trans_single_x x lam < 0 := by
  have hb : (1 : ℝ) < -x + 1 := by linarith
  unfold _yj_trans_single_x
  rw [if_neg (not_le.mpr hx)]
  by_cases h : _eqls lam 2
  · rw [if_neg (not_not_intro h)]
    simpa using Real.log_pos hb
  · rw [if_pos h]
    have habs : 2 < |lam| := not_le.mp h
    rcases lt_or_le lam 0 with hl | hl
    · have he : (0 : ℝ) < 2 - lam := by linarith
      have h1 : (1 : ℝ) < (-x + 1) ^ (2 - lam) :=
        (Real.one_lt_rpow_iff_of_pos (by linarith)).mpr (Or.inl ⟨hb, he⟩)
      have hq : (0 : ℝ) < ((-x + 1) ^ (2 - lam) - 1) / (2 - lam) :=
        div_pos (by linarith) he
      linarith
    · have hlam : 2 < lam := by rwa [abs_of_nonneg hl] at habs
      have he : 2 - lam < 0 := by linarith
      have h1 : (-x + 1) ^ (2 - lam) < 1 :=
        Real.rpow_lt_one_of_one_lt_of_neg hb he
      have hq : (0 : ℝ) < ((-x + 1) ^ (2 - lam) - 1) / (2 - lam) :=
        div_pos_iff.mpr (Or.inr ⟨by linarith, he⟩)
      linarith

/-- C1: the claim states that the forward primitive's `x < 0` half tests
`|λ − 2| ≤ 1e-12`; the source instead tests `_eqls(lam, 2.0)`, which is
`|λ| ≤ 2`. At the failing input x = −1, λ = 1 the code takes the logarithmic
branch and returns −ln 2, while the claim's piecewise rule (|1 − 2| > 1e-12)
demands −(((−x+1)^(2−λ) − 1)/(2−λ)) = −1. The code also contradicts its own
comments ("Case 2: x < 0 and lambda is not two"). -/
theorem c1_forward_lambda2_divergence :
    _yj_trans_single_x (-1) 1 = -Real.log 2 ∧
      _yj_trans_single_x (-1) 1 ≠
        -(((-(-1 : ℝ) + 1) ^ ((2 : ℝ) - 1) - 1) / (2 - 1)) := by
  have h1 : _yj_trans_single_x (-1) 1 = -Real.log 2 := by
    norm_num [_yj_trans_single_x, _eqls, ZERO]
  refine ⟨h1, ?_⟩
  rw [h1]
  have h2 : (-(-1 : ℝ) + 1) ^ ((2 : ℝ) - 1) = 2 := by
    norm_num [Real.rpow_one]
  rw [h2]
  norm_num
  intro heq
  have hlt : Real.log 2 < 0.6931471808 := Real.log_two_lt_d9
  rw [heq] at hlt
  norm_num at hlt

/-- C2: the inverse primitive selects its branch by exact equality of λ
against 0 and 2 and by the sign of the transformed value itself, and on each
branch computes the claimed closed form. -/
theorem c2_inverse_branches (x lam : ℝ) :
    (lam ≠ 0 → 0 ≤ x →
      _yj_inv_single_x x lam = (x * lam + 1) ^ (1 / lam) - 1) ∧
    (lam = 0 → 0 ≤ x → _yj_inv_single_x x lam = Real.exp x - 1) ∧
    (lam ≠ 2 → x < 0 →
      _yj_inv_single_x x lam = -((-x * (2 - lam) + 1) ^ (1 / (2 - lam))) - 1) ∧
    (lam = 2 → x < 0 → _yj_inv_single_x x lam = -(Real.exp (-x) - 1)) := by
  refine ⟨?_, ?_, ?_, ?_⟩
  · intro h1 h2
    simp only [_yj_inv_single_x]
    rw [if_pos ⟨h1, h2⟩]
  · intro h1 h2
    simp only [_yj_inv_single_x]
    rw [if_neg (fun hc => hc.1 h1), if_pos ⟨h1, h2⟩]
  · intro h1 h2
    simp only [_yj_inv_single_x]
    rw [if_neg (fun hc => absurd hc.2 (not_le.mpr h2)),
      if_neg (fun hc => absurd hc.2 (not_le.mpr h2)), if_pos ⟨h1, h2⟩, neg_mul]
  · intro h1 h2
    simp only [_yj_inv_single_x]
    rw [if_neg (fun hc => absurd hc.2 (not_le.mpr h2)),
      if_neg (fun hc => absurd hc.2 (not_le.mpr h2)),
      if_neg (fun hc => hc.1 h1)]

/-- Witness for C2: at y = 3, λ = 1 the first branch applies. -/
theorem c2_inverse_branches_witness :
    _yj_inv_single_x 3 1 = ((3 : ℝ) * 1 + 1) ^ ((1 : ℝ) / 1) - 1 :=
  (c2_inverse_branches 3 1).1 (by norm_num) (by norm_num)

/-- C3: for every observation x ≥ 0 the inverse of the forward transform at
the same λ reconstructs x exactly, for λ = 0 and for every λ outside the
1e-12 tolerance band around 0 (the claimed exception region is the only one
excluded; the λ = 2 boundary never affects x ≥ 0). -/
theorem c3_roundtrip_nonneg (x lam : ℝ) (hx : 0 ≤ x)
    (hlam : lam = 0 ∨ ZERO < |lam|) :
    _yj_inv_single_x (_yj_trans_single_x x lam) lam = x := by
  have hx1 : (1 : ℝ) ≤ x + 1 := by linarith
  rcases hlam with h0 | hband
  · have hfe : _yj_trans_single_x x lam = Real.log (x + 1) := by
      simp only [_yj_trans_single_x]
      rw [if_pos hx, if_neg]
      intro hc
      apply hc
      show |lam| ≤ ZERO
      rw [h0, abs_zero]
      norm_num [ZERO]
    rw [hfe]
    have hy : 0 ≤ Real.log (x + 1) := Real.log_nonneg hx1
    simp only [_yj_inv_single_x]
    rw [if_neg (fun hc => hc.1 h0), if_pos ⟨h0, hy⟩,
      Real.exp_log (by linarith : (0 : ℝ) < x + 1)]
    ring
  · have hne : lam ≠ 0 := by
      intro h
      rw [h, abs_zero] at hband
      norm_num [ZERO] at hband
    have hnz : ¬ _eqls lam ZERO := not_le.mpr hband
    have hfe : _yj_trans_single_x x lam = ((x + 1) ^ lam - 1) / lam := by
      simp only [_yj_trans_single_x]
      rw [if_pos hx, if_pos hnz]
    have hy : 0 ≤ _yj_trans_single_x x lam := forward_nonneg x lam hx
    rw [hfe] at hy ⊢
    simp only [_yj_inv_single_x]
    rw [if_pos ⟨hne, hy⟩, div_mul_cancel₀ _ hne]
    have hcanc : (x + 1) ^ lam - 1 + 1 = (x + 1) ^ lam := by ring
    rw [hcanc, ← Real.rpow_mul (by linarith : (0 : ℝ) ≤ x + 1),
      mul_one_div_cancel hne, Real.rpow_one]
    ring

/-- Witness for C3 at x = 3, λ = 1 (outside the tolerance band). -/
theorem c3_roundtrip_nonneg_witness :
    _yj_inv_single_x (_yj_trans_single_x 3 1) 1 = 3 :=
  c3_roundtrip_nonneg 3 1 (by norm_num) (Or.inr (by norm_num [ZERO]))

/-- C10: the forward primitive preserves the sign region — its output is
nonnegative exactly when the observation is nonnegative, for every λ, so the
inverse primitive's branching on the sign of the transformed value selects
the branch of the original observation's sign region. -/
theorem c10_sign_preservation (x lam : ℝ) :
    0 ≤ _yj_trans_single_x x lam ↔ 0 ≤ x := by
  constructor
  · intro h
    by_contra hxneg
    push_neg at hxneg
    exact absurd h (not_le.mpr (forward_neg x lam hxneg))
  · exact forward_nonneg x lam

/-! Structure of the log-likelihood evaluator. -/

lemma sum_map_div (l : List ℝ) (f : ℝ → ℝ) (c : ℝ) :
    (l.map (fun t => f t / c)).sum = (l.map f).sum / c := by
  induction l with
  | nil => simp
  | cons a tl ih => simp [ih, add_div]

lemma codeVar_eq_popVar (v : List ℝ) : codeVar v (v.length : ℝ) = popVar v := by
  unfold codeVar popVar
  exact sum_map_div v (fun t => (t - v.sum / (v.length : ℝ)) ^ 2) (v.length : ℝ)

lemma shiftVec_length (v : List ℝ) : (shiftVec v).length = v.length := by
  unfold shiftVec
  split <;> simp

lemma llf_state_eq (data : List ℝ) (lmb : ℝ) (hne : data ≠ []) :
    _yj_llf_state data lmb =
      (if popVar (shiftVec (_yj_transform_y data lmb)) = 0 then Except.ok none
       else Except.ok (some ((lmb - 1) * ((shiftVec data).map Real.log).sum
         - (data.length : ℝ) / 2 * Real.log
             (popVar (shiftVec (_yj_transform_y data lmb))))),
       shiftVec data) := by
  have hlen : ¬ data.length = 0 := fun h => hne (List.length_eq_zero.mp h)
  have hy2len : (shiftVec (_yj_transform_y data lmb)).length = data.length := by
    rw [shiftVec_length]
    unfold _yj_transform_y
    exact List.length_map data _
  have hvar : codeVar (shiftVec (_yj_transform_y data lmb)) (data.length : ℝ)
      = popVar (shiftVec (_yj_transform_y data lmb)) := by
    rw [← hy2len]
    exact codeVar_eq_popVar _
  simp only [_yj_llf_state, if_neg hlen, hvar]
  split <;> rfl

lemma llf_ok_none_iff (data : List ℝ) (lmb : ℝ) (hne : data ≠ []) :
    _yj_llf data lmb = Except.ok none ↔
      popVar (shiftVec (_yj_transform_y data lmb)) = 0 := by
  unfold _yj_llf
  rw [llf_state_eq data lmb hne]
  split
  · next h => simpa using h
  · next h => simp [h]

lemma llf_value (data : List ℝ) (lmb : ℝ) (hne : data ≠ [])
    (hvar : popVar (shiftVec (_yj_transform_y data lmb)) ≠ 0) :
    _yj_llf data lmb =
      Except.ok (some ((lmb - 1) * ((shiftVec data).map Real.log).sum
        - (data.length : ℝ) / 2 * Real.log
            (popVar (shiftVec (_yj_transform_y data lmb))))) := by
  unfold _yj_llf
  rw [llf_state_eq data lmb hne, if_neg hvar]

lemma llf_empty (lmb : ℝ) : _yj_llf [] lmb = Except.error "data is empty" := by
  simp [_yj_llf, _yj_llf_state]

lemma llf_not_error (data : List ℝ) (lmb : ℝ) (hne : data ≠ []) :
    ∀ msg, _yj_llf data lmb ≠ Except.error msg := by
  intro msg
  unfold _yj_llf
  rw [llf_state_eq data lmb hne]
  split <;> simp

lemma llf_state_snd (data : List ℝ) (lmb : ℝ) (hne : data ≠ []) :
    (_yj_llf_state data lmb).2 = shiftVec data := by
  rw [llf_state_eq data lmb hne]

lemma llf_const_one_var :
    popVar (shiftVec (_yj_transform_y [1, 1] 1)) = 0 := by
  have hf : _yj_trans_single_x 1 1 = 1 := by
    norm_num [_yj_trans_single_x, _eqls, ZERO, Real.rpow_one]
  have hy : _yj_transform_y [1, 1] 1 = [1, 1] := by
    simp [_yj_transform_y, hf]
  have hmin : listMin [(1 : ℝ), 1] = 1 := by
    norm_num [listMin]
  have hs : shiftVec [(1 : ℝ), 1] = [1, 1] := by
    rw [shiftVec, hmin, if_neg]
    norm_num [ZERO]
  rw [hy, hs]
  norm_num [popVar]

/-- C4: on a non-empty sample the log-likelihood evaluator returns NaN
(`Except.ok none`) exactly when the population variance of the (possibly
shifted) transformed vector is zero, and otherwise the score
(λ−1)·Σ ln(shifted original) − (N/2)·ln(variance); `shiftVec` shifts a
vector up by |min|+1 exactly when its minimum lies below the 1e-12
threshold. -/
theorem c4_llf_value (data : List ℝ) (lmb : ℝ) (hne : data ≠ []) :
    (_yj_llf data lmb = Except.ok none ↔
      popVar (shiftVec (_yj_transform_y data lmb)) = 0) ∧
    (popVar (shiftVec (_yj_transform_y data lmb)) ≠ 0 →
      _yj_llf data lmb =
        Except.ok (some ((lmb - 1) * ((shiftVec data).map Real.log).sum
          - (data.length : ℝ) / 2 * Real.log
              (popVar (shiftVec (_yj_transform_y data lmb)))))) :=
  ⟨llf_ok_none_iff data lmb hne, llf_value data lmb hne⟩

/-- Witness for C4: the constant sample [1, 1] at λ = 1 transforms to the
constant vector [1, 1], whose variance is zero, so the evaluator returns
NaN. -/
theorem c4_llf_value_witness : _yj_llf [1, 1] 1 = Except.ok none :=
  (c4_llf_value [1, 1] 1 (by simp)).1.mpr llf_const_one_var

/-- C8: the log-likelihood evaluator raises an error exactly when its sample
is empty; the zero-variance degeneracy on a non-empty sample is signalled by
the NaN return value (`Except.ok none`), never by an exception. -/
theorem c8_llf_error_iff_empty (data : List ℝ) (lmb : ℝ) :
    ((∃ msg, _yj_llf data lmb = Except.error msg) ↔ data = []) ∧
    (data ≠ [] → popVar (shiftVec (_yj_transform_y data lmb)) = 0 →
      _yj_llf data lmb = Except.ok none) := by
  constructor
  · constructor
    · rintro ⟨msg, hmsg⟩
      by_contra hne
      exact llf_not_error data lmb hne msg hmsg
    · rintro rfl
      exact ⟨"data is empty", llf_empty lmb⟩
  · intro hne hvar
    exact (llf_ok_none_iff data lmb hne).mpr hvar

/-- Witness for C8: the empty sample raises, and the zero-variance sample
[1, 1] at λ = 1 yields the NaN return value rather than an exception. -/
theorem c8_llf_error_iff_empty_witness :
    _yj_llf ([] : List ℝ) 1 = Except.error "data is empty" ∧
    _yj_llf [(1 : ℝ), 1] 1 = Except.ok none :=
  ⟨llf_empty 1, (c8_llf_error_iff_empty [(1 : ℝ), 1] 1).2 (by simp) llf_const_one_var⟩

/-- C5 counterexample: the claim that a call of the evaluator never mutates
the caller-owned sample vector fails at data = [−1, 0], λ = 1: the minimum
−1 lies below 1e-12, so `data += abs(min)+1` shifts the caller's ndarray in
place to [1, 2]. -/
theorem c5_no_mutation_counterexample :
    (_yj_llf_state [(-1 : ℝ), 0] 1).2 ≠ [(-1 : ℝ), 0] := by
  have hmin : listMin [(-1 : ℝ), 0] = -1 := by
    norm_num [listMin, min_def]
  have hsnd : (_yj_llf_state [(-1 : ℝ), 0] 1).2 = [1, 2] := by
    rw [llf_state_snd _ 1 (by simp)]
    rw [shiftVec, hmin, if_pos (by norm_num [ZERO])]
    norm_num
  rw [hsnd]
  intro h
  have h1 : (1 : ℝ) = -1 := by
    simpa using congrArg (fun l => l.headD 0) h
  norm_num at h1

/-- C5 (amended): the evaluator's shift of the transformed vector is local,
but its shift of the original vector writes through to the caller-owned
sample vector: after a call on a non-empty sample, the caller's vector has
been shifted in place by |min|+1 when its minimum lay below 1e-12, and is
unchanged otherwise. -/
theorem c5_mutation_amended (data : List ℝ) (lmb : ℝ) (hne : data ≠ []) :
    (listMin data < ZERO →
      (_yj_llf_state data lmb).2 = data.map (fun t => t + (|listMin data| + 1))) ∧
    (¬ listMin data < ZERO → (_yj_llf_state data lmb).2 = data) := by
  constructor
  · intro h
    rw [llf_state_snd data lmb hne, shiftVec, if_pos h]
  · intro h
    rw [llf_state_snd data lmb hne, shiftVec, if_neg h]

/-- Witness for C5 (amended): on the sample [2, 3], whose minimum is not
below the threshold, the caller's vector is left unchanged. -/
theorem c5_mutation_amended_witness :
    (_yj_llf_state [(2 : ℝ), 3] 1).2 = [(2 : ℝ), 3] := by
  apply (c5_mutation_amended [(2 : ℝ), 3] 1 (by simp)).2
  norm_num [listMin, min_def, ZERO]

/-! Indexing facts for the column/transpose bookkeeping. -/

lemma getD_map {α β : Type} (l : List α) (f : α → β) (i : ℕ) (d : α) (d' : β)
    (h : i < l.length) : (l.map f).getD i d' = f (l.getD i d) := by
  rw [List.getD_eq_getElem?_getD, List.getElem?_map, List.getD_eq_getElem?_getD,
    List.getElem?_eq_getElem h]
  simp

lemma getD_range_map {α : Type} (n : ℕ) (f : ℕ → α) (i : ℕ) (d : α)
    (h : i < n) : ((List.range n).map f).getD i d = f i := by
  rw [List.getD_eq_getElem?_getD, List.getElem?_map, List.getElem?_range h]
  simp

lemma transposeIdx_length (m : List (List ℝ)) (n : ℕ) :
    (transposeIdx m n).length = n := by
  simp [transposeIdx]

lemma transposeIdx_row_length (m : List (List ℝ)) (n : ℕ) :
    ∀ row ∈ transposeIdx m n, row.length = m.length := by
  intro row hrow
  rw [transposeIdx, List.mem_map] at hrow
  obtain ⟨i, _, rfl⟩ := hrow
  exact List.length_map m _

lemma transposeIdx_entry (m : List (List ℝ)) (n i j : ℕ)
    (hi : i < n) (hj : j < m.length) :
    ((transposeIdx m n).getD i []).getD j 0 = (m.getD j []).getD i 0 := by
  rw [transposeIdx, getD_range_map n _ i [] hi, getD_map m _ j [] 0 hj]

lemma transformPayload_length (lams : List ℝ) (X : List (List ℝ)) :
    (transformPayload lams X).length = X.length :=
  transposeIdx_length _ _

lemma transformPayload_row_length (lams : List ℝ) (X : List (List ℝ)) :
    ∀ row ∈ transformPayload lams X, row.length = nFeatures X := by
  intro row hrow
  have h := transposeIdx_row_length _ _ row hrow
  simpa using h

lemma transformPayload_entry (lams : List ℝ) (X : List (List ℝ)) (i j : ℕ)
    (hi : i < X.length) (hj : j < nFeatures X) :
    ((transformPayload lams X).getD i []).getD j 0 =
      _yj_trans_single_x ((X.getD i []).getD j 0) (lams.getD j 0) := by
  rw [transformPayload, transposeIdx_entry _ _ _ _ hi (by simpa using hj),
    getD_range_map _ _ _ _ hj]
  show (_yj_transform_y (col X j) (lams.getD j 0)).getD i 0 = _
  rw [_yj_transform_y, getD_map (col X j) _ i 0 0 (by simpa [col] using hi),
    col, getD_map X _ i [] 0 hi]

/-! Orchestrator contract. -/

/-- C6: fit fails with the validation error naming the actual sample count
when X has fewer than 2 samples, and with at least 2 samples proceeds,
producing one fitted λ per feature. -/
theorem c6_fit_validation (est : List ℝ → ℝ) (X : List (List ℝ)) :
    (X.length < 2 →
      YeoJohnsonTransformer.fit est X =
        Except.error
          ("n_samples should be at least two, but was " ++ toString X.length)) ∧
    (2 ≤ X.length →
      YeoJohnsonTransformer.fit est X = Except.ok ⟨some (lambdasOf est X)⟩ ∧
      (lambdasOf est X).length = nFeatures X) := by
  constructor
  · intro h
    simp only [YeoJohnsonTransformer.fit, if_pos h]
  · intro h
    refine ⟨by simp only [YeoJohnsonTransformer.fit, if_neg (not_lt.mpr h)], ?_⟩
    simp [lambdasOf]

/-- Witness for C6: fit succeeds on a matrix with exactly two samples. -/
theorem c6_fit_validation_witness :
    YeoJohnsonTransformer.fit (fun _ => 1) [[(1 : ℝ)], [2]] =
      Except.ok ⟨some (lambdasOf (fun _ => 1) [[(1 : ℝ)], [2]])⟩ :=
  ((c6_fit_validation (fun _ => 1) [[(1 : ℝ)], [2]]).2 (by norm_num)).1

/-- C7: after a successful fit (one λ per feature of the fitted matrix X0),
transform on a rectangular X fails with the dimension-mismatch error when
X's feature count differs from the fitted one, and otherwise returns the
matrix of identical shape to X whose entry (i, j) is the forward transform
of X's entry (i, j) under the j-th fitted λ (columns in original order). -/
theorem c7_transform_after_fit (est : List ℝ → ℝ) (X0 X : List (List ℝ))
    (t : YeoJohnsonTransformer)
    (hfit : YeoJohnsonTransformer.fit est X0 = Except.ok t)
    (hrect : Rectangular X) :
    (nFeatures X ≠ nFeatures X0 →
      t.transform X = Except.error "dim mismatch in n_features") ∧
    (nFeatures X = nFeatures X0 →
      t.transform X = Except.ok (transformPayload (lambdasOf est X0) X) ∧
      (transformPayload (lambdasOf est X0) X).length = X.length ∧
      (∀ row ∈ transformPayload (lambdasOf est X0) X, row.length = nFeatures X) ∧
      (∀ row ∈ X, row.length = nFeatures X) ∧
      ∀ i j, i < X.length → j < nFeatures X →
        ((transformPayload (lambdasOf est X0) X).getD i []).getD j 0 =
          _yj_trans_single_x ((X.getD i []).getD j 0)
            ((lambdasOf est X0).getD j 0)) := by
  have ht : t = ⟨some (lambdasOf est X0)⟩ := by
    by_cases h : X0.length < 2
    · rw [YeoJohnsonTransformer.fit.eq_1, if_pos h] at hfit
      exact absurd hfit (by simp)
    · simp only [YeoJohnsonTransformer.fit, if_neg h] at hfit
      exact (Except.ok.inj hfit).symm
  subst ht
  have hlen : (lambdasOf est X0).length = nFeatures X0 := by simp [lambdasOf]
  constructor
  · intro hne
    simp only [YeoJohnsonTransformer.transform]
    rw [if_pos]
    rw [hlen]
    exact hne
  · intro heq
    refine ⟨?_, transformPayload_length _ _, transformPayload_row_length _ _,
      hrect, fun i j hi hj => transformPayload_entry _ X i j hi hj⟩
    simp only [YeoJohnsonTransformer.transform]
    rw [if_neg (not_not_intro (hlen ▸ heq))]

/-- Witness for C7: fit on the 2×1 matrix [[1],[2]] with a constant
per-feature estimator, then transform the 2×1 matrix [[3],[4]]; the output
entry (0,0) is the forward transform of 3 under the fitted λ. -/
theorem c7_transform_after_fit_witness :
    YeoJohnsonTransformer.transform
        ⟨some (lambdasOf (fun _ => (1 : ℝ)) [[(1 : ℝ)], [2]])⟩ [[(3 : ℝ)], [4]] =
      Except.ok
        (transformPayload (lambdasOf (fun _ => (1 : ℝ)) [[(1 : ℝ)], [2]])
          [[(3 : ℝ)], [4]]) ∧
    ((transformPayload (lambdasOf (fun _ => (1 : ℝ)) [[(1 : ℝ)], [2]])
          [[(3 : ℝ)], [4]]).getD 0 []).getD 0 0 =
      _yj_trans_single_x 3
        ((lambdasOf (fun _ => (1 : ℝ)) [[(1 : ℝ)], [2]]).getD 0 0) := by
  have hrect : Rectangular [[(3 : ℝ)], [4]] := by
    intro row hrow
    simp only [nFeatures]
    simp only [List.mem_cons, List.not_mem_nil, or_false] at hrow
    rcases hrow with rfl | rfl <;> rfl
  have h := c7_transform_after_fit (fun _ => (1 : ℝ)) [[(1 : ℝ)], [2]]
    [[(3 : ℝ)], [4]] ⟨some (lambdasOf (fun _ => (1 : ℝ)) [[(1 : ℝ)], [2]])⟩
    rfl hrect
  have h2 := h.2 rfl
  exact ⟨h2.1, h2.2.2.2.2 0 0 (by norm_num) (by norm_num [nFeatures])⟩

/-- C9: on an estimator on which fit has never succeeded (`lambda_` unset),
both transform and inverse_transform fail with the not-fitted error for
every input matrix — the result does not depend on X, so the failure
precedes any computation on X — and that error is distinct from the
dimension-mismatch validation error. -/
theorem c9_not_fitted (X : List (List ℝ)) :
    YeoJohnsonTransformer.transform ⟨none⟩ X = Except.error notFittedMsg ∧
    YeoJohnsonTransformer.inverse_transform ⟨none⟩ X = Except.error notFittedMsg ∧
    notFittedMsg ≠ "dim mismatch in n_features" :=
  ⟨rfl, rfl, by decide⟩

end YJ
